import Mathlib

/-!
Verification development for the core package of the AI Fairness and
Explainability Toolkit (AFET).

The visible source of the repository is `src/afet/core/__init__.py`, a pure
re-export module.  Its import/export surface is embedded literally below.
The fairness-metric and bias-mitigation components it re-exports
(`FairnessMetrics` / MetricComputer, `Reweighing`,
`CalibratedEqualizedOddsPostprocessing`, `IntersectionalFairnessMetrics`)
have no source under `src/`, so they are modelled from the specification,
faithful to its words; every such definition carries a doc comment starting
with `Modelled from the spec:`.

Numeric conventions of the model: rates and scores are rationals (ℚ), so
"up to floating-point tolerance" statements become exact statements;
machine integers are `Int`/`Nat`.  All operations are total Lean
functions — the specification's recoverable error conditions
(`InsufficientDataError`, `InfeasibleConstraintError`) are modelled, as the
specification's error-handling policy directs, by undefined (`Option.none`)
or flagged results rather than by aborting.
-/

/-- Modelled from the spec: `PredictionRecord` (section 3 DATA MODEL) — one
evaluated instance: predicted label, predicted score, true label, and the
mapping of protected-attribute name to category value.  The implementation
module `afet/core/fairness_metrics.py` is not part of the visible source.
Attribute values are modelled as a total map, which builds in the invariant
that every record carries a value for every protected attribute. -/
structure PredictionRecord where
  pred : Int
  score : ℚ
  label : Int
  attrs : String → Int

/-- Modelled from the spec: `GroupKey` (section 3) — a protected-attribute
value or tuple of values identifying a subgroup, represented uniformly as
the list of attribute values (a one-element list for a single attribute). -/
abbrev GroupKey := List Int

/-- Modelled from the spec: the key of a record under an ordered list of
protected-attribute names. -/
def groupKeyOf (attrNames : List String) (r : PredictionRecord) : GroupKey :=
  attrNames.map r.attrs

/-- Modelled from the spec: the distinct group keys occurring in a record
collection under a key function (partitioning of the record set). -/
def groupsBy (records : List PredictionRecord) (key : PredictionRecord → GroupKey) :
    List GroupKey :=
  (records.map key).dedup

/-- Modelled from the spec: the members of one group of the partition. -/
def membersBy (records : List PredictionRecord) (key : PredictionRecord → GroupKey)
    (g : GroupKey) : List PredictionRecord :=
  records.filter (fun r => key r = g)

/-- Modelled from the spec: a confusion-matrix-derived rate — the share of
records satisfying `p` among `den` — reported as undefined (`none`) when the
denominator class has zero members, per the invariant that metric ratios
guard against division by zero by reporting an undefined result rather than
raising. -/
def rateOf (den : List PredictionRecord) (p : PredictionRecord → Bool) : Option ℚ :=
  if den.length = 0 then none
  else some (((den.filter p).length : ℚ) / (den.length : ℚ))

/-- Modelled from the spec: the named per-group statistics of a
`MetricResult` (selection rate, true-positive rate, false-positive rate)
together with the group's record count. -/
structure GroupStats where
  count : Nat
  selectionRate : Option ℚ
  tpr : Option ℚ
  fpr : Option ℚ

/-- Modelled from the spec: the per-group statistics computed from the
group's members, with `fav` the favorable label value. -/
def statsOf (members : List PredictionRecord) (fav : Int) : GroupStats :=
  { count := members.length
    selectionRate := rateOf members (fun r => r.pred = fav)
    tpr := rateOf (members.filter (fun r => r.label = fav)) (fun r => r.pred = fav)
    fpr := rateOf (members.filter (fun r => r.label ≠ fav)) (fun r => r.pred = fav) }

/-- Maximum of a list of rationals, `none` on the empty list. -/
def listOMax : List ℚ → Option ℚ
  | [] => none
  | x :: xs => some ((listOMax xs).elim x (max x))

/-- Minimum of a list of rationals, `none` on the empty list. -/
def listOMin : List ℚ → Option ℚ
  | [] => none
  | x :: xs => some ((listOMin xs).elim x (min x))

/-- Modelled from the spec: overall max-minus-min disparity over the defined
per-group rates. -/
def diffOf (rates : List ℚ) : Option ℚ :=
  match listOMax rates, listOMin rates with
  | some M, some m => some (M - m)
  | _, _ => none

/-- Modelled from the spec: overall min-over-max disparity ratio over the
defined per-group rates (e.g. the disparate-impact ratio for selection
rates), undefined when the maximum rate is zero. -/
def ratioOf (rates : List ℚ) : Option ℚ :=
  match listOMax rates, listOMin rates with
  | some M, some m => if M = 0 then none else some (m / M)
  | _, _ => none

/-- Modelled from the spec: `MetricResult` (section 3) — per-group named
statistics plus overall disparity scalars (max-min difference and min/max
ratio for each rate), and the four-fifths-style threshold flag on the
selection-rate ratio. -/
structure MetricResult where
  keys : List GroupKey
  stats : GroupKey → GroupStats
  selDiff : Option ℚ
  selRatio : Option ℚ
  tprDiff : Option ℚ
  fprDiff : Option ℚ
  flagged : Bool

/-- Modelled from the spec: `MetricComputer.compute` (section 4.1) from the
missing module `afet/core/fairness_metrics.py` re-exported as
`FairnessMetrics`.  Partitions the records by the value of one protected
attribute, computes per-group confusion-matrix-derived rates, and overall
disparities over the groups whose rate is defined (undefined groups are
excluded).  The threshold is the explicit configuration value of the
four-fifths-style flag (design note, section 9).  Total function: the
`InsufficientDataError` condition is reported as an undefined rate, never
raised. -/
def MetricComputer.compute (records : List PredictionRecord) (attr : String)
    (fav : Int) (threshold : ℚ) : MetricResult :=
  let key := fun r : PredictionRecord => [r.attrs attr]
  let keys := groupsBy records key
  let stats := fun g => statsOf (membersBy records key g) fav
  let selRates := keys.filterMap (fun g => (stats g).selectionRate)
  let tprRates := keys.filterMap (fun g => (stats g).tpr)
  let fprRates := keys.filterMap (fun g => (stats g).fpr)
  { keys := keys
    stats := stats
    selDiff := diffOf selRates
    selRatio := ratioOf selRates
    tprDiff := diffOf tprRates
    fprDiff := diffOf fprRates
    flagged := match ratioOf selRates with
      | some r => decide (r < threshold)
      | none => false }

/-- Modelled from the spec: `IntersectionalMetrics.compute` (section 4.4)
from the missing module `afet/core/intersectional_fairness.py` re-exported
as `IntersectionalFairnessMetrics` — the same algorithm as
`MetricComputer.compute`, but partitioning on the tuple (Cartesian
combination) of the values of an ordered list of protected attributes. -/
def IntersectionalFairnessMetrics.compute (records : List PredictionRecord)
    (attrNames : List String) (fav : Int) (threshold : ℚ) : MetricResult :=
  let key := fun r : PredictionRecord => attrNames.map r.attrs
  let keys := groupsBy records key
  let stats := fun g => statsOf (membersBy records key g) fav
  let selRates := keys.filterMap (fun g => (stats g).selectionRate)
  let tprRates := keys.filterMap (fun g => (stats g).tpr)
  let fprRates := keys.filterMap (fun g => (stats g).fpr)
  { keys := keys
    stats := stats
    selDiff := diffOf selRates
    selRatio := ratioOf selRates
    tprDiff := diffOf tprRates
    fprDiff := diffOf fprRates
    flagged := match ratioOf selRates with
      | some r => decide (r < threshold)
      | none => false }

/-! ### Embedding of the visible source `src/afet/core/__init__.py` -/

/-- Names bound by `from .fairness_metrics import FairnessMetrics`
(line 8 of `src/afet/core/__init__.py`). -/
def fairness_metrics_exports : List String := ["FairnessMetrics"]

/-- Names bound by `from .bias_mitigation import PrejudiceRemover,
Reweighing, CalibratedEqualizedOddsPostprocessing` (line 9). -/
def bias_mitigation_exports : List String :=
  ["PrejudiceRemover", "Reweighing", "CalibratedEqualizedOddsPostprocessing"]

/-- Names bound by `from .model_comparison import ModelComparator` (line 10). -/
def model_comparison_exports : List String := ["ModelComparator"]

/-- Names bound by `from .explainability import ModelExplainer` (line 11). -/
def explainability_exports : List String := ["ModelExplainer"]

/-- Names bound by `from .intersectional_fairness import
IntersectionalFairnessMetrics` (line 12). -/
def intersectional_fairness_exports : List String :=
  ["IntersectionalFairnessMetrics"]

/-- All names bound by the five submodule imports of
`src/afet/core/__init__.py`, in import order. -/
def importedNames : List String :=
  fairness_metrics_exports ++ bias_mitigation_exports ++
    model_comparison_exports ++ explainability_exports ++
    intersectional_fairness_exports

/-- The `__all__` list of `src/afet/core/__init__.py` (lines 14-22),
verbatim and in order. -/
def dunderAll : List String :=
  ["FairnessMetrics", "PrejudiceRemover", "Reweighing",
   "CalibratedEqualizedOddsPostprocessing", "ModelComparator",
   "ModelExplainer", "IntersectionalFairnessMetrics"]

/-! ### Generic partition lemmas -/

/-- Summing, over a duplicate-free key list containing `b`, the function
that is `c` at `b` and `0` elsewhere gives `c`. -/
theorem sum_map_ite_eq {β M : Type} [DecidableEq β] [AddCommMonoid M]
    (ks : List β) (b : β) (c : M) (hnd : ks.Nodup) (hb : b ∈ ks) :
    (ks.map (fun v => if b = v then c else 0)).sum = c := by
  induction ks with
  | nil => cases hb
  | cons v vs ih =>
    rcases List.mem_cons.mp hb with hv | hv
    · subst hv
      have hnot : b ∉ vs := (List.nodup_cons.mp hnd).1
      have hzero : (vs.map (fun v => if b = v then c else 0)).sum = 0 := by
        rw [List.sum_eq_zero]
        intro x hx
        rcases List.mem_map.mp hx with ⟨w, hw, hwx⟩
        have : b ≠ w := fun h => hnot (h ▸ hw)
        simp [← hwx, this]
      simp [hzero]
    · have hne : b ≠ v := by
        rintro rfl
        exact (List.nodup_cons.mp hnd).1 hv
      simp [hne, ih (List.nodup_cons.mp hnd).2 hv]

/-- Partition lemma: summing `f` over each fiber `k⁻¹ v` of a
duplicate-free key list covering all of `l` recovers the sum of `f` over
`l`. -/
theorem sum_map_filter_partition {α β M : Type} [DecidableEq β] [AddCommMonoid M]
    (l : List α) (k : α → β) (f : α → M) (ks : List β) (hnd : ks.Nodup)
    (hcov : ∀ x ∈ l, k x ∈ ks) :
    (ks.map (fun v => ((l.filter (fun x => k x = v)).map f).sum)).sum
      = (l.map f).sum := by
  induction l with
  | nil => simp
  | cons x xs ih =>
    have hx : k x ∈ ks := hcov x (List.mem_cons_self x xs)
    have hxs : ∀ y ∈ xs, k y ∈ ks := fun y hy => hcov y (List.mem_cons_of_mem x hy)
    have hstep : ∀ v : β,
        ((List.filter (fun a => k a = v) (x :: xs)).map f).sum
          = (if k x = v then f x else 0)
            + ((xs.filter (fun a => k a = v)).map f).sum := by
      intro v
      by_cases h : k x = v <;> simp [List.filter_cons, h]
    calc (ks.map (fun v => (((x :: xs).filter (fun a => k a = v)).map f).sum)).sum
        = (ks.map (fun v => (if k x = v then f x else 0)
            + ((xs.filter (fun a => k a = v)).map f).sum)).sum := by
          apply congrArg List.sum
          exact List.map_congr_left (fun v _ => hstep v)
      _ = (ks.map (fun v => if k x = v then f x else 0)).sum
            + (ks.map (fun v => ((xs.filter (fun a => k a = v)).map f).sum)).sum := by
          rw [← List.sum_map_add]
      _ = f x + ((xs.map f)).sum := by
          rw [sum_map_ite_eq ks (k x) (f x) hnd hx, ih hxs]
      _ = ((x :: xs).map f).sum := by simp

/-- Mapping every element to `1 : ℕ` and summing counts the length. -/
theorem sum_map_one {α : Type} (l : List α) : (l.map (fun _ => (1 : ℕ))).sum = l.length := by
  induction l with
  | nil => rfl
  | cons x xs ih => simp [ih, Nat.add_comm]

/-- Counting partition lemma: the fiber sizes of a duplicate-free covering
key list sum to the total length. -/
theorem sum_filter_lengths {α β : Type} [DecidableEq β]
    (l : List α) (k : α → β) (ks : List β) (hnd : ks.Nodup)
    (hcov : ∀ x ∈ l, k x ∈ ks) :
    (ks.map (fun v => (l.filter (fun x => k x = v)).length)).sum = l.length := by
  have h := sum_map_filter_partition l k (fun _ => (1 : ℕ)) ks hnd hcov
  rw [sum_map_one] at h
  calc (ks.map (fun v => (l.filter (fun x => k x = v)).length)).sum
      = (ks.map (fun v => ((l.filter (fun x => k x = v)).map (fun _ => (1 : ℕ))).sum)).sum := by
        apply congrArg List.sum
        exact List.map_congr_left (fun v _ => (sum_map_one _).symm)
    _ = l.length := h

/-- Restricting a `filterMap` to the elements where the function is defined
changes nothing: groups with undefined rate contribute nothing to the
aggregate. -/
theorem filterMap_filter_isSome {α β : Type} (f : α → Option β) (l : List α) :
    (l.filter (fun x => (f x).isSome)).filterMap f = l.filterMap f := by
  induction l with
  | nil => rfl
  | cons x xs ih =>
    cases hx : f x with
    | none => simp [List.filter_cons, hx, List.filterMap_cons, ih]
    | some b => simp [List.filter_cons, hx, List.filterMap_cons, ih]

/-- C10: the public export surface of `src/afet/core/__init__.py` is exactly
the seven names `FairnessMetrics`, `PrejudiceRemover`, `Reweighing`,
`CalibratedEqualizedOddsPostprocessing`, `ModelComparator`, `ModelExplainer`
and `IntersectionalFairnessMetrics`: the names listed in `__all__` are
precisely the names bound by the five submodule imports (so every `__all__`
entry is bound and no other name is listed), there are seven of them with no
duplicates, and `PrejudiceRemover` and `ModelExplainer` are among them. -/
theorem init_export_surface :
    importedNames = dunderAll ∧ dunderAll.length = 7 ∧ dunderAll.Nodup ∧
    "PrejudiceRemover" ∈ dunderAll ∧ "ModelExplainer" ∈ dunderAll := by
  refine ⟨rfl, rfl, ?_, ?_, ?_⟩ <;> decide

/-- C2: the partition of a record set by group key is exhaustive and
disjoint — the per-group record counts reported by `MetricComputer.compute`
sum to the total record count. -/
theorem metric_partition_complete (records : List PredictionRecord) (attr : String)
    (fav : Int) (threshold : ℚ) :
    (((MetricComputer.compute records attr fav threshold).keys).map
      (fun g => ((MetricComputer.compute records attr fav threshold).stats g).count)).sum
      = records.length := by
  show ((groupsBy records (fun r => [r.attrs attr])).map
      (fun g => (membersBy records (fun r => [r.attrs attr]) g).length)).sum
      = records.length
  exact sum_filter_lengths records (fun r => [r.attrs attr]) _ (List.nodup_dedup _)
    (fun x hx => List.mem_dedup.mpr (List.mem_map_of_mem _ hx))

/-- C5: `IntersectionalFairnessMetrics.compute` called with a single
protected attribute returns exactly the same `MetricResult` as
`MetricComputer.compute` on that attribute. -/
theorem intersectional_single_attribute (records : List PredictionRecord)
    (attr : String) (fav : Int) (threshold : ℚ) :
    IntersectionalFairnessMetrics.compute records [attr] fav threshold
      = MetricComputer.compute records attr fav threshold := rfl

/-- C1: when a group has zero members of an outcome class required by a rate
(here: no members with unfavorable label, the class required by the
false-positive rate), `MetricComputer.compute` reports that group's rate as
undefined rather than raising (`compute` is a total function), and the
overall max-min disparity is exactly the disparity over the groups whose
rate is defined — undefined groups are excluded. -/
theorem metric_undefined_rate_excluded (records : List PredictionRecord)
    (attr : String) (fav : Int) (threshold : ℚ) (g : GroupKey)
    (hg : g ∈ (MetricComputer.compute records attr fav threshold).keys)
    (hz : ((membersBy records (fun r => [r.attrs attr]) g).filter
        (fun r => r.label ≠ fav)).length = 0) :
    ((MetricComputer.compute records attr fav threshold).stats g).fpr = none ∧
    (MetricComputer.compute records attr fav threshold).fprDiff
      = diffOf ((((MetricComputer.compute records attr fav threshold).keys).filter
          (fun g2 => (((MetricComputer.compute records attr fav threshold).stats g2).fpr).isSome)).filterMap
          (fun g2 => ((MetricComputer.compute records attr fav threshold).stats g2).fpr)) := by
  constructor
  · show rateOf ((membersBy records (fun r => [r.attrs attr]) g).filter
        (fun r => r.label ≠ fav)) (fun r => r.pred = fav) = none
    unfold rateOf
    rw [if_pos hz]
  · rw [filterMap_filter_isSome]
    rfl

/-- Record constructor used by the concrete instances below: attribute value
`a` on every attribute name, prediction `pred`, true label `label`, score
`score`. -/
def mkRecord (a pred label : Int) (score : ℚ) : PredictionRecord :=
  { pred := pred, score := score, label := label, attrs := fun _ => a }

/-- Concrete records: group `0` has only favorable labels, group `1` has
both outcome classes. -/
def c1Recs : List PredictionRecord :=
  [mkRecord 0 1 1 1, mkRecord 0 0 1 0, mkRecord 1 1 0 1, mkRecord 1 0 0 0]

/-- Witness for C1 at a concrete input: group `[0]` of `c1Recs` has zero
members with unfavorable label, and the theorem applies. -/
theorem metric_undefined_rate_excluded_witness :
    ([0] ∈ (MetricComputer.compute c1Recs "a" 1 (4/5)).keys) ∧
    (((membersBy c1Recs (fun r => [r.attrs "a"]) [0]).filter
        (fun r => r.label ≠ 1)).length = 0) ∧
    (((MetricComputer.compute c1Recs "a" 1 (4/5)).stats [0]).fpr = none ∧
    (MetricComputer.compute c1Recs "a" 1 (4/5)).fprDiff
      = diffOf ((((MetricComputer.compute c1Recs "a" 1 (4/5)).keys).filter
          (fun g2 => (((MetricComputer.compute c1Recs "a" 1 (4/5)).stats g2).fpr).isSome)).filterMap
          (fun g2 => ((MetricComputer.compute c1Recs "a" 1 (4/5)).stats g2).fpr))) :=
  ⟨by decide, by decide,
    metric_undefined_rate_excluded c1Recs "a" 1 (4/5) [0] (by decide) (by decide)⟩

/-! ### Uniform duplication of records (C6) -/

/-- Duplication of every record `k` times. -/
def dupRecords (k : Nat) (records : List PredictionRecord) : List PredictionRecord :=
  records.flatMap (fun r => List.replicate k r)

/-- Filtering a replicate keeps all of it or none of it. -/
theorem filter_replicate_eq {α : Type} (p : α → Bool) (k : Nat) (x : α) :
    (List.replicate k x).filter p = if p x then List.replicate k x else [] := by
  induction k with
  | zero => simp
  | succ n ih => by_cases h : p x <;> simp [List.replicate_succ, List.filter_cons, h, ih]

/-- Deduplicating a run of `k > 0` copies followed by a tail is the same as
deduplicating one copy followed by the tail. -/
theorem dedup_replicate_append {α : Type} [DecidableEq α] (k : Nat) (hk : 0 < k)
    (x : α) (t : List α) :
    (List.replicate k x ++ t).dedup = (x :: t).dedup := by
  induction k with
  | zero => exact absurd hk (lt_irrefl 0)
  | succ n ih =>
    cases n with
    | zero => simp
    | succ m =>
      have hmem : x ∈ List.replicate (m + 1) x ++ t :=
        List.mem_append.mpr (Or.inl (List.mem_replicate.mpr ⟨Nat.succ_ne_zero m, rfl⟩))
      rw [List.replicate_succ, List.cons_append, List.dedup_cons_of_mem hmem]
      exact ih (Nat.succ_pos m)

/-- Deduplication is invariant under duplicating every element `k > 0`
times. -/
theorem dedup_flatMap_replicate {α : Type} [DecidableEq α] (k : Nat) (hk : 0 < k)
    (l : List α) :
    (l.flatMap (fun x => List.replicate k x)).dedup = l.dedup := by
  induction l with
  | nil => rfl
  | cons x xs ih =>
    rw [List.flatMap_cons, dedup_replicate_append k hk x _]
    by_cases hx : x ∈ xs
    · have hx2 : x ∈ xs.flatMap (fun x => List.replicate k x) :=
        List.mem_flatMap.mpr ⟨x, hx, List.mem_replicate.mpr ⟨Nat.pos_iff_ne_zero.mp hk, rfl⟩⟩
      rw [List.dedup_cons_of_mem hx2, List.dedup_cons_of_mem hx, ih]
    · have hx2 : x ∉ xs.flatMap (fun x => List.replicate k x) := by
        intro h
        rcases List.mem_flatMap.mp h with ⟨a, ha, hxa⟩
        exact hx ((List.mem_replicate.mp hxa).2 ▸ ha)
      rw [List.dedup_cons_of_not_mem hx2, List.dedup_cons_of_not_mem hx, ih]

/-- Filtering commutes with uniform duplication. -/
theorem filter_flatMap_replicate {α : Type} (p : α → Bool) (k : Nat) (l : List α) :
    (l.flatMap (fun x => List.replicate k x)).filter p
      = (l.filter p).flatMap (fun x => List.replicate k x) := by
  induction l with
  | nil => rfl
  | cons x xs ih =>
    rw [List.flatMap_cons, List.filter_append, ih, filter_replicate_eq, List.filter_cons]
    by_cases h : p x <;> simp [h]

/-- Length of a uniform duplication. -/
theorem length_flatMap_replicate {α : Type} (k : Nat) (l : List α) :
    (l.flatMap (fun x => List.replicate k x)).length = k * l.length := by
  induction l with
  | nil => simp
  | cons x xs ih => simp [ih]; ring

/-- Every rate is invariant under duplicating the member records `k > 0`
times. -/
theorem rateOf_dup (l : List PredictionRecord) (p : PredictionRecord → Bool)
    (k : Nat) (hk : 0 < k) : rateOf (dupRecords k l) p = rateOf l p := by
  unfold rateOf dupRecords
  rw [length_flatMap_replicate, filter_flatMap_replicate, length_flatMap_replicate]
  by_cases h : l.length = 0
  · simp [h]
  · have hk0 : (k : ℚ) ≠ 0 := Nat.cast_ne_zero.mpr (Nat.pos_iff_ne_zero.mp hk)
    rw [if_neg (by simp [Nat.mul_eq_zero, Nat.pos_iff_ne_zero.mp hk, h]), if_neg h]
    congr 1
    push_cast
    rw [mul_div_mul_left _ _ hk0]

/-- The group-key list is invariant under duplicating every record `k > 0`
times. -/
theorem groupsBy_dup (records : List PredictionRecord)
    (key : PredictionRecord → GroupKey) (k : Nat) (hk : 0 < k) :
    groupsBy (dupRecords k records) key = groupsBy records key := by
  unfold groupsBy dupRecords
  rw [List.map_flatMap]
  simp only [List.map_replicate]
  have h : records.flatMap (fun r => List.replicate k (key r))
      = (records.map key).flatMap (fun x => List.replicate k x) := by
    induction records with
    | nil => rfl
    | cons x xs ih => rw [List.flatMap_cons, List.map_cons, List.flatMap_cons, ih]
  rw [h, dedup_flatMap_replicate k hk]

/-- Group membership commutes with uniform duplication. -/
theorem membersBy_dup (records : List PredictionRecord)
    (key : PredictionRecord → GroupKey) (g : GroupKey) (k : Nat) :
    membersBy (dupRecords k records) key g = dupRecords k (membersBy records key g) := by
  unfold membersBy dupRecords
  exact filter_flatMap_replicate _ k records

/-- C6: the disparate-impact ratio (the min-over-max selection-rate ratio
reported by `MetricComputer.compute`) is invariant under duplicating every
record `k > 0` times. -/
theorem disparate_impact_scale_invariant (records : List PredictionRecord)
    (attr : String) (fav : Int) (threshold : ℚ) (k : Nat) (hk : 0 < k) :
    (MetricComputer.compute (dupRecords k records) attr fav threshold).selRatio
      = (MetricComputer.compute records attr fav threshold).selRatio := by
  show ratioOf ((groupsBy (dupRecords k records) (fun r => [r.attrs attr])).filterMap
        (fun g => (statsOf (membersBy (dupRecords k records) (fun r => [r.attrs attr]) g) fav).selectionRate))
      = ratioOf ((groupsBy records (fun r => [r.attrs attr])).filterMap
        (fun g => (statsOf (membersBy records (fun r => [r.attrs attr]) g) fav).selectionRate))
  rw [groupsBy_dup _ _ k hk]
  congr 1
  apply List.filterMap_congr
  intro g _
  show rateOf (membersBy (dupRecords k records) (fun r => [r.attrs attr]) g)
      (fun r => r.pred = fav)
    = rateOf (membersBy records (fun r => [r.attrs attr]) g) (fun r => r.pred = fav)
  rw [membersBy_dup, rateOf_dup _ _ k hk]

/-- Witness for C6 at a concrete input: duplicating `c1Recs` twice leaves
the disparate-impact ratio unchanged. -/
theorem disparate_impact_scale_invariant_witness :
    0 < 2 ∧
    (MetricComputer.compute (dupRecords 2 c1Recs) "a" 1 (4/5)).selRatio
      = (MetricComputer.compute c1Recs "a" 1 (4/5)).selRatio :=
  ⟨by decide, disparate_impact_scale_invariant c1Recs "a" 1 (4/5) 2 (by decide)⟩

/-! ### Concrete four-fifths scenario (C7) -/

/-- Scenario records: group A (attribute value 0) with 80 records of which
40 are favorable, group B (attribute value 1) with 20 records of which 5 are
favorable; favorable label 1. -/
def scenarioRecords : List PredictionRecord :=
  List.replicate 40 (mkRecord 0 1 1 1) ++ List.replicate 40 (mkRecord 0 0 0 0) ++
    (List.replicate 5 (mkRecord 1 1 1 1) ++ List.replicate 15 (mkRecord 1 0 0 0))

set_option maxRecDepth 100000 in
/-- C7: on the two-group scenario (A: 80 records, 40 favorable; B: 20
records, 5 favorable) with favorable label 1, `MetricComputer.compute`
reports selection rates 1/2 and 1/4, a disparity ratio of 1/2, and flags the
result against the 4/5 four-fifths threshold. -/
theorem four_fifths_scenario :
    ((MetricComputer.compute scenarioRecords "grp" 1 (4/5)).stats [0]).selectionRate
        = some (1/2) ∧
    ((MetricComputer.compute scenarioRecords "grp" 1 (4/5)).stats [1]).selectionRate
        = some (1/4) ∧
    (MetricComputer.compute scenarioRecords "grp" 1 (4/5)).selRatio = some (1/2) ∧
    (MetricComputer.compute scenarioRecords "grp" 1 (4/5)).flagged = true := by
  have hm0 : (membersBy scenarioRecords (fun r => [r.attrs "grp"]) [0]).length = 80 := by
    decide
  have hs0 : ((membersBy scenarioRecords (fun r => [r.attrs "grp"]) [0]).filter
      (fun r => r.pred = 1)).length = 40 := by decide
  have hm1 : (membersBy scenarioRecords (fun r => [r.attrs "grp"]) [1]).length = 20 := by
    decide
  have hs1 : ((membersBy scenarioRecords (fun r => [r.attrs "grp"]) [1]).filter
      (fun r => r.pred = 1)).length = 5 := by decide
  have hkeys : groupsBy scenarioRecords (fun r => [r.attrs "grp"]) = [[0], [1]] := by
    decide
  have hr0 : (statsOf (membersBy scenarioRecords (fun r => [r.attrs "grp"]) [0]) 1).selectionRate
      = some (1/2) := by
    show rateOf (membersBy scenarioRecords (fun r => [r.attrs "grp"]) [0])
        (fun r => r.pred = 1) = some (1/2)
    unfold rateOf
    rw [hs0, hm0]
    norm_num
  have hr1 : (statsOf (membersBy scenarioRecords (fun r => [r.attrs "grp"]) [1]) 1).selectionRate
      = some (1/4) := by
    show rateOf (membersBy scenarioRecords (fun r => [r.attrs "grp"]) [1])
        (fun r => r.pred = 1) = some (1/4)
    unfold rateOf
    rw [hs1, hm1]
    norm_num
  have hsel : (groupsBy scenarioRecords (fun r => [r.attrs "grp"])).filterMap
      (fun g => (statsOf (membersBy scenarioRecords (fun r => [r.attrs "grp"]) g) 1).selectionRate)
      = [1/2, 1/4] := by
    rw [hkeys]
    simp [List.filterMap_cons, hr0, hr1]
  have hratio : ratioOf [(1:ℚ)/2, 1/4] = some (1/2) := by
    show (match listOMax [(1:ℚ)/2, 1/4], listOMin [(1:ℚ)/2, 1/4] with
      | some M, some m => if M = 0 then none else some (m / M)
      | _, _ => none) = some (1/2)
    have hMax : listOMax [(1:ℚ)/2, 1/4] = some (1/2) := by
      simp [listOMax]
      norm_num
    have hMin : listOMin [(1:ℚ)/2, 1/4] = some (1/4) := by
      simp [listOMin]
      norm_num
    rw [hMax, hMin]
    norm_num
  refine ⟨hr0, hr1, ?_, ?_⟩
  · show ratioOf ((groupsBy scenarioRecords (fun r => [r.attrs "grp"])).filterMap
        (fun g => (statsOf (membersBy scenarioRecords (fun r => [r.attrs "grp"]) g) 1).selectionRate))
        = some (1/2)
    rw [hsel]
    exact hratio
  · show (match ratioOf ((groupsBy scenarioRecords (fun r => [r.attrs "grp"])).filterMap
        (fun g => (statsOf (membersBy scenarioRecords (fun r => [r.attrs "grp"]) g) 1).selectionRate)) with
      | some r => decide (r < 4/5)
      | none => false) = true
    rw [hsel, hratio]
    show decide ((1:ℚ)/2 < 4/5) = true
    rw [decide_eq_true_eq]
    norm_num

/-! ### Reweighing (C3, C9) -/

/-- Modelled from the spec: the distinct values of one protected attribute
in a record collection (the attribute domain seen during `fit`). -/
def attrValsOf (records : List PredictionRecord) (attr : String) : List Int :=
  (records.map (fun r => r.attrs attr)).dedup

/-- Modelled from the spec: the distinct label values in a record
collection (the label domain seen during `fit`). -/
def labelsOf (records : List PredictionRecord) : List Int :=
  (records.map (fun r => r.label)).dedup

/-- Modelled from the spec: number of records with attribute value `g`. -/
def groupCount (records : List PredictionRecord) (attr : String) (g : Int) : Nat :=
  (records.filter (fun r => r.attrs attr = g)).length

/-- Modelled from the spec: number of records with label `l`. -/
def labelCount (records : List PredictionRecord) (l : Int) : Nat :=
  (records.filter (fun r => r.label = l)).length

/-- Modelled from the spec: observed count of the `(group, label)` cell. -/
def cellCount (records : List PredictionRecord) (attr : String) (g l : Int) : Nat :=
  (records.filter (fun r => r.attrs attr = g ∧ r.label = l)).length

/-- Modelled from the spec: `MitigationModel` as fitted by `Reweighing`
(section 3 and 4.2) — per-`(group, label)`-cell sample weights over the
fit-time domains, plus the recorded warning flag for cells whose weight was
undefined. -/
structure ReweighModel where
  attr : String
  groups : List Int
  labels : List Int
  weight : Int → Int → ℚ
  warning : Bool

/-- Modelled from the spec: `Reweighing.fit` (section 4.2) from the missing
module `afet/core/bias_mitigation.py`.  The per-cell weight is the expected
frequency under independence of attribute and label divided by the observed
frequency: `(groupCount/N · labelCount/N) / (cellCount/N)
= groupCount·labelCount / (N·cellCount)`.  A cell with zero observed count
gets the default weight `1` and sets the recorded warning flag instead of
dividing by zero. -/
def Reweighing.fit (records : List PredictionRecord) (attr : String) : ReweighModel :=
  { attr := attr
    groups := attrValsOf records attr
    labels := labelsOf records
    weight := fun g l =>
      if cellCount records attr g l = 0 then 1
      else ((groupCount records attr g : ℚ) * (labelCount records l : ℚ))
        / ((records.length : ℚ) * (cellCount records attr g l : ℚ))
    warning := (attrValsOf records attr).any (fun g =>
      (labelsOf records).any (fun l => cellCount records attr g l = 0)) }

/-- Modelled from the spec: `Reweighing.transform` (section 4.2) — attaches
the fitted per-cell weight to each record. -/
def Reweighing.transform (m : ReweighModel) (records : List PredictionRecord) :
    List (PredictionRecord × ℚ) :=
  records.map (fun r => (r, m.weight (r.attrs m.attr) r.label))

/-- Modelled from the spec: total weight of the weighted records whose
record satisfies `p` (the weighted joint/marginal counts). -/
def weightedSum (ws : List (PredictionRecord × ℚ)) (p : PredictionRecord → Bool) : ℚ :=
  ((ws.filter (fun rw => p rw.1)).map (fun rw => rw.2)).sum

/-- The attribute stored in a fitted reweighing model. -/
theorem fit_attr (records : List PredictionRecord) (attr : String) :
    (Reweighing.fit records attr).attr = attr := rfl

/-- C9: a `(group, label)` cell with zero observed count gets the default
weight `1.0` in the fitted model and sets the model's recorded warning flag
(and `fit`, a total function, does not divide by zero or raise). -/
theorem reweighing_zero_cell_defaults (records : List PredictionRecord)
    (attr : String) (g l : Int)
    (hg : g ∈ attrValsOf records attr) (hl : l ∈ labelsOf records)
    (hz : cellCount records attr g l = 0) :
    (Reweighing.fit records attr).weight g l = 1 ∧
    (Reweighing.fit records attr).warning = true := by
  constructor
  · show (if cellCount records attr g l = 0 then (1 : ℚ)
      else ((groupCount records attr g : ℚ) * (labelCount records l : ℚ))
        / ((records.length : ℚ) * (cellCount records attr g l : ℚ))) = 1
    rw [if_pos hz]
  · show ((attrValsOf records attr).any (fun g =>
      (labelsOf records).any (fun l => cellCount records attr g l = 0))) = true
    rw [List.any_eq_true]
    refine ⟨g, hg, ?_⟩
    rw [List.any_eq_true]
    exact ⟨l, hl, by simp [hz]⟩

/-- Concrete records with an empty `(group 0, label 1)` cell: group `0` has
only label `0`, group `1` has labels `0` and `1`. -/
def c9Recs : List PredictionRecord :=
  [mkRecord 0 0 0 0, mkRecord 1 0 0 0, mkRecord 1 0 1 0]

/-- Witness for C9 at a concrete input: the `(0, 1)` cell of `c9Recs` is
empty, and the theorem applies. -/
theorem reweighing_zero_cell_defaults_witness :
    (0 ∈ attrValsOf c9Recs "a") ∧ (1 ∈ labelsOf c9Recs) ∧
    cellCount c9Recs "a" 0 1 = 0 ∧
    ((Reweighing.fit c9Recs "a").weight 0 1 = 1 ∧
      (Reweighing.fit c9Recs "a").warning = true) :=
  ⟨by decide, by decide, by decide,
    reweighing_zero_cell_defaults c9Recs "a" 0 1 (by decide) (by decide) (by decide)⟩

/-- Sum of a function that is constant on a list. -/
theorem sum_map_const_on {α : Type} (l : List α) (f : α → ℚ) (c : ℚ)
    (h : ∀ x ∈ l, f x = c) : (l.map f).sum = l.length * c := by
  induction l with
  | nil => simp
  | cons x xs ih =>
    rw [List.map_cons, List.sum_cons, ih (fun y hy => h y (List.mem_cons_of_mem x hy)),
      h x (List.mem_cons_self x xs), List.length_cons]
    push_cast
    ring

/-- Weighted sums over a reweighing transform reduce to sums of fitted
weights over the filtered records. -/
theorem weightedSum_transform (m : ReweighModel) (records : List PredictionRecord)
    (p : PredictionRecord → Bool) :
    weightedSum (Reweighing.transform m records) p
      = ((records.filter p).map (fun r => m.weight (r.attrs m.attr) r.label)).sum := by
  unfold weightedSum Reweighing.transform
  induction records with
  | nil => rfl
  | cons x xs ih =>
    by_cases h : p x <;> simp [List.filter_cons, h, ih]

/-- The observed cell count is bounded by the total record count. -/
theorem cellCount_le_length (records : List PredictionRecord) (attr : String)
    (g l : Int) : cellCount records attr g l ≤ records.length :=
  List.length_filter_le _ records

/-- Core cell identity: observed count times fitted weight equals the
expected count `groupCount·labelCount/N` whenever the cell is non-empty. -/
theorem cell_weight_total (records : List PredictionRecord) (attr : String)
    (g l : Int) (hc : cellCount records attr g l ≠ 0) :
    (cellCount records attr g l : ℚ) * (Reweighing.fit records attr).weight g l
      = (groupCount records attr g : ℚ) * (labelCount records l : ℚ)
        / (records.length : ℚ) := by
  have hw : (Reweighing.fit records attr).weight g l
      = ((groupCount records attr g : ℚ) * (labelCount records l : ℚ))
        / ((records.length : ℚ) * (cellCount records attr g l : ℚ)) := by
    show (if cellCount records attr g l = 0 then (1 : ℚ)
      else ((groupCount records attr g : ℚ) * (labelCount records l : ℚ))
        / ((records.length : ℚ) * (cellCount records attr g l : ℚ)))
      = ((groupCount records attr g : ℚ) * (labelCount records l : ℚ))
        / ((records.length : ℚ) * (cellCount records attr g l : ℚ))
    rw [if_neg hc]
  have hN : records.length ≠ 0 := by
    intro h0
    exact hc (Nat.le_zero.mp (h0 ▸ cellCount_le_length records attr g l))
  have hN2 : (records.length : ℚ) ≠ 0 := Nat.cast_ne_zero.mpr hN
  have hc2 : (cellCount records attr g l : ℚ) ≠ 0 := Nat.cast_ne_zero.mpr hc
  rw [hw]
  field_simp
  ring

/-- Weighted joint count of one `(group, label)` cell of the fitted data. -/
theorem weightedSum_cell (records : List PredictionRecord) (attr : String)
    (g l : Int) (hc : cellCount records attr g l ≠ 0) :
    weightedSum (Reweighing.transform (Reweighing.fit records attr) records)
        (fun r => r.attrs attr = g ∧ r.label = l)
      = (groupCount records attr g : ℚ) * (labelCount records l : ℚ)
        / (records.length : ℚ) := by
  rw [weightedSum_transform]
  simp only [fit_attr]
  have hconst : ∀ r ∈ records.filter (fun r => r.attrs attr = g ∧ r.label = l),
      (Reweighing.fit records attr).weight (r.attrs attr) r.label
        = (Reweighing.fit records attr).weight g l := by
    intro r hr
    have h2 := of_decide_eq_true (List.mem_filter.mp hr).2
    rw [h2.1, h2.2]
  rw [sum_map_const_on _ _ _ hconst]
  show (cellCount records attr g l : ℚ) * (Reweighing.fit records attr).weight g l = _
  exact cell_weight_total records attr g l hc

/-- The distinct-label counts sum to the total record count (cast to ℚ). -/
theorem labelCounts_sum (records : List PredictionRecord) :
    ((labelsOf records).map (fun l2 => (labelCount records l2 : ℚ))).sum
      = (records.length : ℚ) := by
  have h : ((labelsOf records).map (fun l2 => labelCount records l2)).sum
      = records.length :=
    sum_filter_lengths records (fun r : PredictionRecord => r.label) (labelsOf records)
      (List.nodup_dedup _) (fun x hx => List.mem_dedup.mpr (List.mem_map_of_mem _ hx))
  calc ((labelsOf records).map (fun l2 => (labelCount records l2 : ℚ))).sum
      = ((((labelsOf records).map (fun l2 => labelCount records l2)).sum : ℕ) : ℚ) := by
        exact Eq.trans (by rw [List.map_map]; rfl) (Nat.cast_list_sum _).symm
    _ = (records.length : ℚ) := by exact congrArg (fun n : ℕ => (n : ℚ)) h

/-- The distinct-group counts sum to the total record count (cast to ℚ). -/
theorem groupCounts_sum (records : List PredictionRecord) (attr : String) :
    ((attrValsOf records attr).map (fun g2 => (groupCount records attr g2 : ℚ))).sum
      = (records.length : ℚ) := by
  have h : ((attrValsOf records attr).map (fun g2 => groupCount records attr g2)).sum
      = records.length :=
    sum_filter_lengths records (fun r : PredictionRecord => r.attrs attr)
      (attrValsOf records attr) (List.nodup_dedup _)
      (fun x hx => List.mem_dedup.mpr (List.mem_map_of_mem _ hx))
  calc ((attrValsOf records attr).map (fun g2 => (groupCount records attr g2 : ℚ))).sum
      = ((((attrValsOf records attr).map (fun g2 => groupCount records attr g2)).sum : ℕ) : ℚ) := by
        exact Eq.trans (by rw [List.map_map]; rfl) (Nat.cast_list_sum _).symm
    _ = (records.length : ℚ) := by exact congrArg (fun n : ℕ => (n : ℚ)) h

/-- Summing the fitted weights over one group fiber gives back the group's
record count: reweighing equalizes the weighted group marginal. -/
theorem group_fiber_sum (records : List PredictionRecord) (attr : String) (g : Int)
    (hN : records.length ≠ 0)
    (hcells : ∀ l2 ∈ labelsOf records, cellCount records attr g l2 ≠ 0) :
    ((records.filter (fun r => r.attrs attr = g)).map
      (fun r => (Reweighing.fit records attr).weight (r.attrs attr) r.label)).sum
      = (groupCount records attr g : ℚ) := by
  have hmw : ∀ r ∈ records.filter (fun r => r.attrs attr = g),
      (Reweighing.fit records attr).weight (r.attrs attr) r.label
        = (Reweighing.fit records attr).weight g r.label := by
    intro r hr
    rw [of_decide_eq_true (List.mem_filter.mp hr).2]
  have hinner : ∀ l2 ∈ labelsOf records,
      (((records.filter (fun r => r.attrs attr = g)).filter (fun r => r.label = l2)).map
        (fun r => (Reweighing.fit records attr).weight g r.label)).sum
      = (groupCount records attr g : ℚ) * (labelCount records l2 : ℚ)
        / (records.length : ℚ) := by
    intro l2 hl2
    have hconst : ∀ r ∈ (records.filter (fun r => r.attrs attr = g)).filter
        (fun r => r.label = l2),
        (Reweighing.fit records attr).weight g r.label
          = (Reweighing.fit records attr).weight g l2 := by
      intro r hr
      rw [of_decide_eq_true (List.mem_filter.mp hr).2]
    rw [sum_map_const_on _ _ _ hconst]
    have hlen : ((records.filter (fun r => r.attrs attr = g)).filter
        (fun r => r.label = l2)).length = cellCount records attr g l2 := by
      rw [List.filter_filter]
      unfold cellCount
      congr 1
      apply List.filter_congr
      intro a _
      rw [Bool.decide_and]
      exact Bool.and_comm _ _
    rw [hlen]
    exact cell_weight_total records attr g l2 (hcells l2 hl2)
  have hfactor : ∀ l2 : Int,
      (groupCount records attr g : ℚ) * (labelCount records l2 : ℚ) / (records.length : ℚ)
      = ((groupCount records attr g : ℚ) / (records.length : ℚ)) * (labelCount records l2 : ℚ) := by
    intro l2
    rw [mul_div_right_comm]
  calc ((records.filter (fun r => r.attrs attr = g)).map
        (fun r => (Reweighing.fit records attr).weight (r.attrs attr) r.label)).sum
      = ((records.filter (fun r => r.attrs attr = g)).map
        (fun r => (Reweighing.fit records attr).weight g r.label)).sum := by
        exact congrArg List.sum (List.map_congr_left hmw)
    _ = ((labelsOf records).map (fun l2 =>
          (((records.filter (fun r => r.attrs attr = g)).filter (fun r => r.label = l2)).map
            (fun r => (Reweighing.fit records attr).weight g r.label)).sum)).sum := by
        exact (sum_map_filter_partition (records.filter (fun r => r.attrs attr = g))
          (fun r : PredictionRecord => r.label)
          (fun r => (Reweighing.fit records attr).weight g r.label)
          (labelsOf records) (List.nodup_dedup _)
          (fun x hx => List.mem_dedup.mpr
            (List.mem_map_of_mem _ (List.mem_of_mem_filter hx)))).symm
    _ = ((labelsOf records).map (fun l2 =>
          (groupCount records attr g : ℚ) * (labelCount records l2 : ℚ)
            / (records.length : ℚ))).sum := by
        exact congrArg List.sum (List.map_congr_left hinner)
    _ = ((labelsOf records).map (fun l2 =>
          ((groupCount records attr g : ℚ) / (records.length : ℚ))
            * (labelCount records l2 : ℚ))).sum := by
        exact congrArg List.sum (List.map_congr_left (fun l2 _ => hfactor l2))
    _ = ((groupCount records attr g : ℚ) / (records.length : ℚ))
          * ((labelsOf records).map (fun l2 => (labelCount records l2 : ℚ))).sum := by
        exact List.sum_map_mul_left _ _ _
    _ = ((groupCount records attr g : ℚ) / (records.length : ℚ)) * (records.length : ℚ) := by
        rw [labelCounts_sum]
    _ = (groupCount records attr g : ℚ) :=
        div_mul_cancel₀ _ (Nat.cast_ne_zero.mpr hN)

/-- Summing the fitted weights over one label fiber gives back the label's
record count: reweighing equalizes the weighted label marginal. -/
theorem label_fiber_sum (records : List PredictionRecord) (attr : String) (l : Int)
    (hN : records.length ≠ 0)
    (hcells : ∀ g2 ∈ attrValsOf records attr, cellCount records attr g2 l ≠ 0) :
    ((records.filter (fun r => r.label = l)).map
      (fun r => (Reweighing.fit records attr).weight (r.attrs attr) r.label)).sum
      = (labelCount records l : ℚ) := by
  have hmw : ∀ r ∈ records.filter (fun r => r.label = l),
      (Reweighing.fit records attr).weight (r.attrs attr) r.label
        = (Reweighing.fit records attr).weight (r.attrs attr) l := by
    intro r hr
    rw [of_decide_eq_true (List.mem_filter.mp hr).2]
  have hinner : ∀ g2 ∈ attrValsOf records attr,
      (((records.filter (fun r => r.label = l)).filter (fun r => r.attrs attr = g2)).map
        (fun r => (Reweighing.fit records attr).weight (r.attrs attr) l)).sum
      = (groupCount records attr g2 : ℚ) * (labelCount records l : ℚ)
        / (records.length : ℚ) := by
    intro g2 hg2
    have hconst : ∀ r ∈ (records.filter (fun r => r.label = l)).filter
        (fun r => r.attrs attr = g2),
        (Reweighing.fit records attr).weight (r.attrs attr) l
          = (Reweighing.fit records attr).weight g2 l := by
      intro r hr
      rw [of_decide_eq_true (List.mem_filter.mp hr).2]
    rw [sum_map_const_on _ _ _ hconst]
    have hlen : ((records.filter (fun r => r.label = l)).filter
        (fun r => r.attrs attr = g2)).length = cellCount records attr g2 l := by
      rw [List.filter_filter]
      unfold cellCount
      congr 1
      apply List.filter_congr
      intro a _
      rw [Bool.decide_and]
    rw [hlen]
    exact cell_weight_total records attr g2 l (hcells g2 hg2)
  have hfactor : ∀ g2 : Int,
      (groupCount records attr g2 : ℚ) * (labelCount records l : ℚ) / (records.length : ℚ)
      = ((labelCount records l : ℚ) / (records.length : ℚ)) * (groupCount records attr g2 : ℚ) := by
    intro g2
    rw [mul_comm (groupCount records attr g2 : ℚ) (labelCount records l : ℚ),
      mul_div_right_comm]
  calc ((records.filter (fun r => r.label = l)).map
        (fun r => (Reweighing.fit records attr).weight (r.attrs attr) r.label)).sum
      = ((records.filter (fun r => r.label = l)).map
        (fun r => (Reweighing.fit records attr).weight (r.attrs attr) l)).sum := by
        exact congrArg List.sum (List.map_congr_left hmw)
    _ = ((attrValsOf records attr).map (fun g2 =>
          (((records.filter (fun r => r.label = l)).filter (fun r => r.attrs attr = g2)).map
            (fun r => (Reweighing.fit records attr).weight (r.attrs attr) l)).sum)).sum := by
        exact (sum_map_filter_partition (records.filter (fun r => r.label = l))
          (fun r : PredictionRecord => r.attrs attr)
          (fun r => (Reweighing.fit records attr).weight (r.attrs attr) l)
          (attrValsOf records attr) (List.nodup_dedup _)
          (fun x hx => List.mem_dedup.mpr
            (List.mem_map_of_mem _ (List.mem_of_mem_filter hx)))).symm
    _ = ((attrValsOf records attr).map (fun g2 =>
          (groupCount records attr g2 : ℚ) * (labelCount records l : ℚ)
            / (records.length : ℚ))).sum := by
        exact congrArg List.sum (List.map_congr_left hinner)
    _ = ((attrValsOf records attr).map (fun g2 =>
          ((labelCount records l : ℚ) / (records.length : ℚ))
            * (groupCount records attr g2 : ℚ))).sum := by
        exact congrArg List.sum (List.map_congr_left (fun g2 _ => hfactor g2))
    _ = ((labelCount records l : ℚ) / (records.length : ℚ))
          * ((attrValsOf records attr).map (fun g2 => (groupCount records attr g2 : ℚ))).sum := by
        exact List.sum_map_mul_left _ _ _
    _ = ((labelCount records l : ℚ) / (records.length : ℚ)) * (records.length : ℚ) := by
        rw [groupCounts_sum]
    _ = (labelCount records l : ℚ) :=
        div_mul_cancel₀ _ (Nat.cast_ne_zero.mpr hN)

/-- Weighted group marginal of the fitted data. -/
theorem weightedSum_group (records : List PredictionRecord) (attr : String) (g : Int)
    (hN : records.length ≠ 0)
    (hcells : ∀ l2 ∈ labelsOf records, cellCount records attr g l2 ≠ 0) :
    weightedSum (Reweighing.transform (Reweighing.fit records attr) records)
        (fun r => r.attrs attr = g)
      = (groupCount records attr g : ℚ) := by
  rw [weightedSum_transform]
  exact group_fiber_sum records attr g hN hcells

/-- Weighted label marginal of the fitted data. -/
theorem weightedSum_label (records : List PredictionRecord) (attr : String) (l : Int)
    (hN : records.length ≠ 0)
    (hcells : ∀ g2 ∈ attrValsOf records attr, cellCount records attr g2 l ≠ 0) :
    weightedSum (Reweighing.transform (Reweighing.fit records attr) records)
        (fun r => r.label = l)
      = (labelCount records l : ℚ) := by
  rw [weightedSum_transform]
  exact label_fiber_sum records attr l hN hcells

/-- Weighted total of the fitted data: the reweighing weights preserve the
total mass `N`. -/
theorem weightedSum_total (records : List PredictionRecord) (attr : String)
    (hN : records.length ≠ 0)
    (hcells : ∀ g2 ∈ attrValsOf records attr, ∀ l2 ∈ labelsOf records,
      cellCount records attr g2 l2 ≠ 0) :
    weightedSum (Reweighing.transform (Reweighing.fit records attr) records)
        (fun _ => true)
      = (records.length : ℚ) := by
  rw [weightedSum_transform]
  have hinner : ∀ g2 ∈ attrValsOf records attr,
      ((records.filter (fun r => r.attrs attr = g2)).map
        (fun r => (Reweighing.fit records attr).weight (r.attrs attr) r.label)).sum
      = (groupCount records attr g2 : ℚ) :=
    fun g2 hg2 => group_fiber_sum records attr g2 hN (fun l2 hl2 => hcells g2 hg2 l2 hl2)
  calc ((records.filter (fun _ => true)).map
        (fun r => (Reweighing.fit records attr).weight (r.attrs (Reweighing.fit records attr).attr) r.label)).sum
      = (records.map
        (fun r => (Reweighing.fit records attr).weight (r.attrs attr) r.label)).sum := by
        rw [List.filter_true]
        rfl
    _ = ((attrValsOf records attr).map (fun g2 =>
          ((records.filter (fun r => r.attrs attr = g2)).map
            (fun r => (Reweighing.fit records attr).weight (r.attrs attr) r.label)).sum)).sum := by
        exact (sum_map_filter_partition records
          (fun r : PredictionRecord => r.attrs attr)
          (fun r => (Reweighing.fit records attr).weight (r.attrs attr) r.label)
          (attrValsOf records attr) (List.nodup_dedup _)
          (fun x hx => List.mem_dedup.mpr (List.mem_map_of_mem _ hx))).symm
    _ = ((attrValsOf records attr).map (fun g2 => (groupCount records attr g2 : ℚ))).sum := by
        exact congrArg List.sum (List.map_congr_left hinner)
    _ = (records.length : ℚ) := groupCounts_sum records attr

/-- C3: on the fitted data, the reweighing weights make the weighted joint
distribution of (protected attribute, label) equal to the product of its
marginals — exactly, hence within any floating-point tolerance — whenever
every `(group, label)` cell is non-empty. -/
theorem reweighing_independence (records : List PredictionRecord) (attr : String)
    (hne : records.length ≠ 0)
    (hcells : ∀ g2 ∈ attrValsOf records attr, ∀ l2 ∈ labelsOf records,
      cellCount records attr g2 l2 ≠ 0)
    (g l : Int) (hg : g ∈ attrValsOf records attr) (hl : l ∈ labelsOf records) :
    weightedSum (Reweighing.transform (Reweighing.fit records attr) records)
        (fun r => r.attrs attr = g ∧ r.label = l)
      / weightedSum (Reweighing.transform (Reweighing.fit records attr) records)
        (fun _ => true)
      = (weightedSum (Reweighing.transform (Reweighing.fit records attr) records)
            (fun r => r.attrs attr = g)
          / weightedSum (Reweighing.transform (Reweighing.fit records attr) records)
            (fun _ => true))
        * (weightedSum (Reweighing.transform (Reweighing.fit records attr) records)
            (fun r => r.label = l)
          / weightedSum (Reweighing.transform (Reweighing.fit records attr) records)
            (fun _ => true)) := by
  rw [weightedSum_cell records attr g l (hcells g hg l hl),
    weightedSum_group records attr g hne (fun l2 hl2 => hcells g hg l2 hl2),
    weightedSum_label records attr l hne (fun g2 hg2 => hcells g2 hg2 l hl),
    weightedSum_total records attr hne hcells]
  have hN2 : (records.length : ℚ) ≠ 0 := Nat.cast_ne_zero.mpr hne
  field_simp

/-- Concrete records with all four `(group, label)` cells non-empty. -/
def c3Recs : List PredictionRecord :=
  [mkRecord 0 1 0 1, mkRecord 0 1 1 1, mkRecord 1 0 0 0, mkRecord 1 0 1 0]

/-- Witness for C3 at a concrete input: on `c3Recs` all cells are
non-empty and the theorem applies to the cell `(0, 0)`. -/
theorem reweighing_independence_witness :
    c3Recs.length ≠ 0 ∧
    (∀ g2 ∈ attrValsOf c3Recs "a", ∀ l2 ∈ labelsOf c3Recs,
      cellCount c3Recs "a" g2 l2 ≠ 0) ∧
    (0 ∈ attrValsOf c3Recs "a") ∧ (0 ∈ labelsOf c3Recs) ∧
    (weightedSum (Reweighing.transform (Reweighing.fit c3Recs "a") c3Recs)
        (fun r => r.attrs "a" = 0 ∧ r.label = 0)
      / weightedSum (Reweighing.transform (Reweighing.fit c3Recs "a") c3Recs)
        (fun _ => true)
      = (weightedSum (Reweighing.transform (Reweighing.fit c3Recs "a") c3Recs)
            (fun r => r.attrs "a" = 0)
          / weightedSum (Reweighing.transform (Reweighing.fit c3Recs "a") c3Recs)
            (fun _ => true))
        * (weightedSum (Reweighing.transform (Reweighing.fit c3Recs "a") c3Recs)
            (fun r => r.label = 0)
          / weightedSum (Reweighing.transform (Reweighing.fit c3Recs "a") c3Recs)
            (fun _ => true))) :=
  ⟨by decide, by decide, by decide, by decide,
    reweighing_independence c3Recs "a" (by decide) (by decide) 0 0 (by decide) (by decide)⟩

/-! ### Calibrated equalized-odds postprocessing (C4, C8) -/

/-- Modelled from the spec: the members of group `g` with unfavorable true
label — the denominator class of the (generalized) false-positive rate. -/
def negMembers (records : List PredictionRecord) (attr : String) (fav g : Int) :
    List PredictionRecord :=
  records.filter (fun r => r.attrs attr = g ∧ r.label ≠ fav)

/-- Mean predicted score of a list of records (`0` on the empty list, which
the theorems rule out by hypothesis). -/
def scoreMean (l : List PredictionRecord) : ℚ :=
  (l.map (fun r => r.score)).sum / (l.length : ℚ)

/-- Modelled from the spec: the generalized false-positive rate of group `g`
— the mean predicted score over the group's members with unfavorable true
label (the score-based error rate equalized by the chosen `cost_constraint`
criterion, here false-positive-rate parity). -/
def genFPR (records : List PredictionRecord) (attr : String) (fav g : Int) : ℚ :=
  scoreMean (negMembers records attr fav g)

/-- Modelled from the spec: the base rate of group `g` — the empirical
probability of the favorable label, which is both the constant prediction of
the trivial base-rate predictor and that predictor's generalized
false-positive rate. -/
def baseRate (records : List PredictionRecord) (attr : String) (fav g : Int) : ℚ :=
  (cellCount records attr g fav : ℚ) / (groupCount records attr g : ℚ)

/-- Modelled from the spec: the lower end of the error rates achievable for
group `g` by mixing the original score with the base-rate predictor. -/
def ceoLower (records : List PredictionRecord) (attr : String) (fav g : Int) : ℚ :=
  min (genFPR records attr fav g) (baseRate records attr fav g)

/-- Modelled from the spec: the upper end of the error rates achievable for
group `g` by mixing. -/
def ceoUpper (records : List PredictionRecord) (attr : String) (fav g : Int) : ℚ :=
  max (genFPR records attr fav g) (baseRate records attr fav g)

/-- Maximum of a list of rationals with the head as seed (`0` on the empty
list). -/
def foldMaxD : List ℚ → ℚ
  | [] => 0
  | x :: xs => xs.foldr max x

/-- Minimum of a list of rationals with the head as seed (`0` on the empty
list). -/
def foldMinD : List ℚ → ℚ
  | [] => 0
  | x :: xs => xs.foldr min x

/-- Modelled from the spec: the largest lower end over all groups — the
smallest common error rate not below any group's achievable interval. -/
def ceoMaxLower (records : List PredictionRecord) (attr : String) (fav : Int) : ℚ :=
  foldMaxD ((attrValsOf records attr).map (ceoLower records attr fav))

/-- Modelled from the spec: the smallest upper end over all groups. -/
def ceoMinUpper (records : List PredictionRecord) (attr : String) (fav : Int) : ℚ :=
  foldMinD ((attrValsOf records attr).map (ceoUpper records attr fav))

/-- Modelled from the spec: the common target error rate — the closed-form
solution of the constrained optimization: the intersection point of the
per-group achievable intervals when they intersect, otherwise the midpoint
of the gap (the best-effort approximation). -/
def ceoTarget (records : List PredictionRecord) (attr : String) (fav : Int) : ℚ :=
  if ceoMaxLower records attr fav ≤ ceoMinUpper records attr fav then
    ceoMaxLower records attr fav
  else (ceoMaxLower records attr fav + ceoMinUpper records attr fav) / 2

/-- Clamp `x` into the interval `[lo, hi]`. -/
def clampQ (lo hi x : ℚ) : ℚ := max lo (min hi x)

/-- Modelled from the spec: `MitigationModel` as fitted by
`CalibratedEqualizedOddsPostprocessing` (sections 3 and 4.3) — per-group
mixing rates between the original score and the trivial base-rate
predictor, the common target rate, and the explicit flag telling exact
parity apart from the best-effort approximation. -/
structure CEOModel where
  attr : String
  fav : Int
  groups : List Int
  base : Int → ℚ
  mix : Int → ℚ
  target : ℚ
  exact : Bool

/-- Modelled from the spec: `CalibratedEqualizedOddsPostprocessing.fit`
(section 4.3) from the missing module `afet/core/bias_mitigation.py`.
Derives, per group, the deterministic mixing rate toward the target rate
(clamped into `[0, 1]`), and sets `exact := true` precisely when the
achievable intervals intersect, so the target parity is met exactly;
otherwise the result is the closest feasible approximation, flagged
approximate.  Total function: the `InfeasibleConstraintError` condition is
reported through the flag, never raised. -/
def CalibratedEqualizedOddsPostprocessing.fit (records : List PredictionRecord)
    (attr : String) (fav : Int) : CEOModel :=
  { attr := attr
    fav := fav
    groups := attrValsOf records attr
    base := fun g => baseRate records attr fav g
    mix := fun g =>
      if baseRate records attr fav g = genFPR records attr fav g then 0
      else max 0 (min 1 ((ceoTarget records attr fav - genFPR records attr fav g)
        / (baseRate records attr fav g - genFPR records attr fav g)))
    target := ceoTarget records attr fav
    exact := decide (ceoMaxLower records attr fav ≤ ceoMinUpper records attr fav) }

/-- Modelled from the spec: `CalibratedEqualizedOddsPostprocessing.transform`
(section 4.3) — mixes each record's score with its group's base rate at the
group's fitted mixing rate. -/
def CalibratedEqualizedOddsPostprocessing.transform (m : CEOModel)
    (records : List PredictionRecord) : List PredictionRecord :=
  records.map (fun r =>
    { r with score := (1 - m.mix (r.attrs m.attr)) * r.score
        + m.mix (r.attrs m.attr) * m.base (r.attrs m.attr) })

/-- Filtering a mapped list filters the preimages. -/
theorem filter_map_comm {α β : Type} (f : α → β) (p : β → Bool) (l : List α) :
    (l.map f).filter p = (l.filter (fun a => p (f a))).map f := by
  induction l with
  | nil => rfl
  | cons x xs ih => by_cases h : p (f x) <;> simp [List.filter_cons, h, ih]

/-- Transforming scores does not change group membership or labels, so the
unfavorable-label members of a group after `transform` are exactly the
transformed unfavorable-label members. -/
theorem negMembers_transform (m : CEOModel) (recs : List PredictionRecord) (g : Int) :
    negMembers (CalibratedEqualizedOddsPostprocessing.transform m recs) m.attr m.fav g
      = (negMembers recs m.attr m.fav g).map (fun r =>
          { r with score := (1 - m.mix (r.attrs m.attr)) * r.score
              + m.mix (r.attrs m.attr) * m.base (r.attrs m.attr) }) := by
  unfold negMembers CalibratedEqualizedOddsPostprocessing.transform
  rw [filter_map_comm]

/-- Sum of an affine function of the scores. -/
theorem sum_map_affine (l : List PredictionRecord) (a c : ℚ) :
    (l.map (fun r => a * r.score + c)).sum
      = a * (l.map (fun r => r.score)).sum + l.length * c := by
  induction l with
  | nil => simp
  | cons x xs ih =>
    rw [List.map_cons, List.sum_cons, ih, List.map_cons, List.sum_cons,
      List.length_cons]
    push_cast
    ring

/-- Mean score after mixing every score of a group-homogeneous non-empty
list toward the group's base rate. -/
theorem scoreMean_mixed (l : List PredictionRecord) (m : CEOModel) (g : Int)
    (hmem : ∀ r ∈ l, r.attrs m.attr = g) (hl : l.length ≠ 0) :
    scoreMean (l.map (fun r =>
      { r with score := (1 - m.mix (r.attrs m.attr)) * r.score
          + m.mix (r.attrs m.attr) * m.base (r.attrs m.attr) }))
      = (1 - m.mix g) * scoreMean l + m.mix g * m.base g := by
  unfold scoreMean
  rw [List.map_map, List.length_map]
  have hfun : ∀ r ∈ l,
      ((fun rr : PredictionRecord => rr.score) ∘ (fun r : PredictionRecord =>
        { r with score := (1 - m.mix (r.attrs m.attr)) * r.score
            + m.mix (r.attrs m.attr) * m.base (r.attrs m.attr) })) r
      = (1 - m.mix g) * r.score + m.mix g * m.base g := by
    intro r hr
    show (1 - m.mix (r.attrs m.attr)) * r.score
        + m.mix (r.attrs m.attr) * m.base (r.attrs m.attr)
      = (1 - m.mix g) * r.score + m.mix g * m.base g
    rw [hmem r hr]
  calc ((l.map ((fun rr : PredictionRecord => rr.score) ∘ (fun r : PredictionRecord =>
        { r with score := (1 - m.mix (r.attrs m.attr)) * r.score
            + m.mix (r.attrs m.attr) * m.base (r.attrs m.attr) }))).sum) / (l.length : ℚ)
      = ((l.map (fun r => (1 - m.mix g) * r.score + m.mix g * m.base g)).sum)
          / (l.length : ℚ) := by
        exact congrArg (fun s => s / (l.length : ℚ))
          (congrArg List.sum (List.map_congr_left hfun))
    _ = ((1 - m.mix g) * (l.map (fun r => r.score)).sum
          + (l.length : ℚ) * (m.mix g * m.base g)) / (l.length : ℚ) := by
        rw [sum_map_affine]
    _ = (1 - m.mix g) * ((l.map (fun r => r.score)).sum / (l.length : ℚ))
          + m.mix g * m.base g := by
        have hl2 : (l.length : ℚ) ≠ 0 := Nat.cast_ne_zero.mpr hl
        field_simp
        ring

/-- The generalized false-positive rate of a group after `transform` is the
mix of the group's original rate and its base rate. -/
theorem genFPR_transform_mixed (m : CEOModel) (recs : List PredictionRecord) (g : Int)
    (hn : (negMembers recs m.attr m.fav g).length ≠ 0) :
    genFPR (CalibratedEqualizedOddsPostprocessing.transform m recs) m.attr m.fav g
      = (1 - m.mix g) * genFPR recs m.attr m.fav g + m.mix g * m.base g := by
  unfold genFPR
  rw [negMembers_transform]
  exact scoreMean_mixed (negMembers recs m.attr m.fav g) m g
    (fun r hr => (of_decide_eq_true (List.mem_filter.mp hr).2).1) hn

/-- The clamped mixing rate realizes exactly the clamp of the target into
the group's achievable interval: mixing rate
`clamp₀₁((t - r)/(b - r))` applied between rate `r` and base `b` lands on
`clampQ (min r b) (max r b) t`. -/
theorem mix_clamp (r b t : ℚ) :
    (1 - (if b = r then 0 else max 0 (min 1 ((t - r) / (b - r))))) * r
      + (if b = r then 0 else max 0 (min 1 ((t - r) / (b - r)))) * b
      = clampQ (min r b) (max r b) t := by
  by_cases hbr : b = r
  · subst hbr
    rw [if_pos rfl, min_self, max_self]
    unfold clampQ
    rw [max_eq_left (min_le_left b t)]
    ring
  · rw [if_neg hbr]
    have hsub : b - r ≠ 0 := sub_ne_zero.mpr hbr
    rcases lt_or_gt_of_ne hbr with hlt | hgt
    · -- b < r : interval [b, r]
      have hpos : 0 < r - b := by linarith
      have hrw : (t - r) / (b - r) = (r - t) / (r - b) := by
        rw [show r - t = -(t - r) by ring, show r - b = -(b - r) by ring,
          neg_div_neg_eq]
      rw [hrw, min_eq_right hlt.le, max_eq_left hlt.le]
      unfold clampQ
      rcases le_or_lt r t with h1 | h1
      · -- t at or above the interval: rate 0, result r
        have hq : (r - t) / (r - b) ≤ 0 :=
          (div_le_iff₀ hpos).mpr (by linarith)
        rw [min_eq_right (hq.trans zero_le_one), max_eq_left hq,
          min_eq_left h1, max_eq_right hlt.le]
        ring
      · rcases le_or_lt t b with h2 | h2
        · -- t at or below the interval: rate 1, result b
          have hq : 1 ≤ (r - t) / (r - b) :=
            (one_le_div hpos).mpr (by linarith)
          rw [min_eq_left hq, max_eq_right zero_le_one,
            min_eq_right (h2.trans hlt.le), max_eq_left h2]
          ring
        · -- t inside the interval: result t
          have hq0 : 0 ≤ (r - t) / (r - b) := div_nonneg (by linarith) hpos.le
          have hq1 : (r - t) / (r - b) ≤ 1 := (div_le_one hpos).mpr (by linarith)
          rw [min_eq_right hq1, max_eq_right hq0, min_eq_right h1.le,
            max_eq_right h2.le]
          have hrb : r - b ≠ 0 := ne_of_gt hpos
          field_simp
          ring
    · -- r < b : interval [r, b]
      have hpos : 0 < b - r := by linarith
      rw [min_eq_left hgt.le, max_eq_right hgt.le]
      unfold clampQ
      rcases le_or_lt t r with h1 | h1
      · -- t at or below the interval: rate 0, result r
        have hq : (t - r) / (b - r) ≤ 0 :=
          (div_le_iff₀ hpos).mpr (by linarith)
        rw [min_eq_right (hq.trans zero_le_one), max_eq_left hq,
          min_eq_right (h1.trans hgt.le), max_eq_left h1]
        ring
      · rcases le_or_lt b t with h2 | h2
        · -- t at or above the interval: rate 1, result b
          have hq : 1 ≤ (t - r) / (b - r) :=
            (one_le_div hpos).mpr (by linarith)
          rw [min_eq_left hq, max_eq_right zero_le_one,
            min_eq_left h2, max_eq_right hgt.le]
          ring
        · -- t inside the interval: result t
          have hq0 : 0 ≤ (t - r) / (b - r) := div_nonneg (by linarith) hpos.le
          have hq1 : (t - r) / (b - r) ≤ 1 := (div_le_one hpos).mpr (by linarith)
          rw [min_eq_right hq1, max_eq_right hq0, min_eq_right h2.le,
            max_eq_right h1.le]
          field_simp
          ring

/-- Members of a list are bounded by a max-fold with any seed. -/
theorem le_foldr_max (x d : ℚ) (l : List ℚ) (h : x ∈ l) : x ≤ l.foldr max d := by
  induction l with
  | nil => cases h
  | cons y ys ih =>
    rcases List.mem_cons.mp h with rfl | h2
    · exact le_max_left _ _
    · exact (ih h2).trans (le_max_right _ _)

/-- The seed is bounded by a max-fold. -/
theorem seed_le_foldr_max (d : ℚ) (l : List ℚ) : d ≤ l.foldr max d := by
  induction l with
  | nil => exact le_refl d
  | cons y ys ih => exact ih.trans (le_max_right _ _)

/-- Members of a list bound a min-fold with any seed. -/
theorem foldr_min_le (x d : ℚ) (l : List ℚ) (h : x ∈ l) : l.foldr min d ≤ x := by
  induction l with
  | nil => cases h
  | cons y ys ih =>
    rcases List.mem_cons.mp h with rfl | h2
    · exact min_le_left _ _
    · exact (min_le_right _ _).trans (ih h2)

/-- A min-fold is bounded by its seed. -/
theorem foldr_min_le_seed (d : ℚ) (l : List ℚ) : l.foldr min d ≤ d := by
  induction l with
  | nil => exact le_refl d
  | cons y ys ih => exact (min_le_right _ _).trans ih

/-- Every member of a list is at most `foldMaxD` of the list. -/
theorem le_foldMaxD (x : ℚ) (l : List ℚ) (h : x ∈ l) : x ≤ foldMaxD l := by
  cases l with
  | nil => cases h
  | cons y ys =>
    show x ≤ ys.foldr max y
    rcases List.mem_cons.mp h with rfl | h2
    · exact seed_le_foldr_max x ys
    · exact le_foldr_max x y ys h2

/-- `foldMinD` of a list is at most every member. -/
theorem foldMinD_le (x : ℚ) (l : List ℚ) (h : x ∈ l) : foldMinD l ≤ x := by
  cases l with
  | nil => cases h
  | cons y ys =>
    show ys.foldr min y ≤ x
    rcases List.mem_cons.mp h with rfl | h2
    · exact foldr_min_le_seed x ys
    · exact foldr_min_le x y ys h2

/-- The transformed rate of a group with at least one unfavorable-label
member is the clamp of the common target into the group's achievable
interval. -/
theorem ceo_mixed_rate (records : List PredictionRecord) (attr : String)
    (fav g : Int) (hn : (negMembers records attr fav g).length ≠ 0) :
    genFPR (CalibratedEqualizedOddsPostprocessing.transform
        (CalibratedEqualizedOddsPostprocessing.fit records attr fav) records)
        attr fav g
      = clampQ (ceoLower records attr fav g) (ceoUpper records attr fav g)
          (ceoTarget records attr fav) := by
  have h1 : genFPR (CalibratedEqualizedOddsPostprocessing.transform
        (CalibratedEqualizedOddsPostprocessing.fit records attr fav) records)
        attr fav g
      = (1 - (CalibratedEqualizedOddsPostprocessing.fit records attr fav).mix g)
          * genFPR records attr fav g
        + (CalibratedEqualizedOddsPostprocessing.fit records attr fav).mix g
          * (CalibratedEqualizedOddsPostprocessing.fit records attr fav).base g :=
    genFPR_transform_mixed (CalibratedEqualizedOddsPostprocessing.fit records attr fav)
      records g hn
  rw [h1]
  show (1 - (if baseRate records attr fav g = genFPR records attr fav g then 0
        else max 0 (min 1 ((ceoTarget records attr fav - genFPR records attr fav g)
          / (baseRate records attr fav g - genFPR records attr fav g)))))
      * genFPR records attr fav g
    + (if baseRate records attr fav g = genFPR records attr fav g then 0
        else max 0 (min 1 ((ceoTarget records attr fav - genFPR records attr fav g)
          / (baseRate records attr fav g - genFPR records attr fav g))))
      * baseRate records attr fav g
    = clampQ (min (genFPR records attr fav g) (baseRate records attr fav g))
        (max (genFPR records attr fav g) (baseRate records attr fav g))
        (ceoTarget records attr fav)
  exact mix_clamp (genFPR records attr fav g) (baseRate records attr fav g)
    (ceoTarget records attr fav)

/-- C4: whenever the parity constraint is feasible within tolerance
`tol ≥ 0` (the largest interval lower end exceeds the smallest upper end by
at most `tol`; in particular whenever some common rate is exactly
achievable), applying `transform` with the fitted model yields generalized
false-positive rates that agree across any two groups within `tol`. -/
theorem ceo_feasible_parity (records : List PredictionRecord) (attr : String)
    (fav : Int) (tol : ℚ) (htol : 0 ≤ tol)
    (hfeas : ceoMaxLower records attr fav ≤ ceoMinUpper records attr fav + tol)
    (g1 g2 : Int)
    (hg1 : g1 ∈ attrValsOf records attr) (hg2 : g2 ∈ attrValsOf records attr)
    (hn1 : (negMembers records attr fav g1).length ≠ 0)
    (hn2 : (negMembers records attr fav g2).length ≠ 0) :
    |genFPR (CalibratedEqualizedOddsPostprocessing.transform
        (CalibratedEqualizedOddsPostprocessing.fit records attr fav) records)
        attr fav g1
      - genFPR (CalibratedEqualizedOddsPostprocessing.transform
        (CalibratedEqualizedOddsPostprocessing.fit records attr fav) records)
        attr fav g2| ≤ tol := by
  rw [ceo_mixed_rate records attr fav g1 hn1, ceo_mixed_rate records attr fav g2 hn2]
  have hl1 : ceoLower records attr fav g1 ≤ ceoMaxLower records attr fav :=
    le_foldMaxD _ _ (List.mem_map_of_mem _ hg1)
  have hl2 : ceoLower records attr fav g2 ≤ ceoMaxLower records attr fav :=
    le_foldMaxD _ _ (List.mem_map_of_mem _ hg2)
  have hu1 : ceoMinUpper records attr fav ≤ ceoUpper records attr fav g1 :=
    foldMinD_le _ _ (List.mem_map_of_mem _ hg1)
  have hu2 : ceoMinUpper records attr fav ≤ ceoUpper records attr fav g2 :=
    foldMinD_le _ _ (List.mem_map_of_mem _ hg2)
  by_cases hex : ceoMaxLower records attr fav ≤ ceoMinUpper records attr fav
  · have ht : ceoTarget records attr fav = ceoMaxLower records attr fav := if_pos hex
    have hc : ∀ g3 : Int, ceoLower records attr fav g3 ≤ ceoMaxLower records attr fav →
        ceoMinUpper records attr fav ≤ ceoUpper records attr fav g3 →
        clampQ (ceoLower records attr fav g3) (ceoUpper records attr fav g3)
          (ceoTarget records attr fav) = ceoTarget records attr fav := by
      intro g3 ha hb
      unfold clampQ
      rw [min_eq_right (by rw [ht]; exact hex.trans hb),
        max_eq_right (by rw [ht]; exact ha)]
    rw [hc g1 hl1 hu1, hc g2 hl2 hu2, sub_self, abs_zero]
    exact htol
  · have hUL : ceoMinUpper records attr fav < ceoMaxLower records attr fav :=
      lt_of_not_le hex
    have ht : ceoTarget records attr fav
        = (ceoMaxLower records attr fav + ceoMinUpper records attr fav) / 2 :=
      if_neg hex
    have htlo : ceoMinUpper records attr fav < ceoTarget records attr fav := by
      rw [ht]; linarith
    have hthi : ceoTarget records attr fav < ceoMaxLower records attr fav := by
      rw [ht]; linarith
    have hcb : ∀ g3 : Int, ceoLower records attr fav g3 ≤ ceoMaxLower records attr fav →
        ceoMinUpper records attr fav ≤ ceoUpper records attr fav g3 →
        ceoMinUpper records attr fav
          ≤ clampQ (ceoLower records attr fav g3) (ceoUpper records attr fav g3)
              (ceoTarget records attr fav)
        ∧ clampQ (ceoLower records attr fav g3) (ceoUpper records attr fav g3)
              (ceoTarget records attr fav) ≤ ceoMaxLower records attr fav := by
      intro g3 ha hb
      unfold clampQ
      constructor
      · exact (le_min hb htlo.le).trans (le_max_right _ _)
      · exact max_le ha ((min_le_right _ _).trans hthi.le)
    obtain ⟨ha1, hb1⟩ := hcb g1 hl1 hu1
    obtain ⟨ha2, hb2⟩ := hcb g2 hl2 hu2
    rw [abs_sub_le_iff]
    constructor <;> linarith

/-- The clamp of `t` into an interval containing `x` is at least as close
to `t` as `x` is. -/
theorem clamp_closest (lo hi t x : ℚ) (h1 : lo ≤ x) (h2 : x ≤ hi) :
    |clampQ lo hi t - t| ≤ |x - t| := by
  unfold clampQ
  have hlohi : lo ≤ hi := h1.trans h2
  rcases le_or_lt t lo with hA | hA
  · rw [min_eq_right (hA.trans hlohi), max_eq_left hA,
      abs_of_nonneg (by linarith), abs_of_nonneg (by linarith)]
    linarith
  · rcases le_or_lt t hi with hB | hB
    · rw [min_eq_right hB, max_eq_right hA.le, sub_self, abs_zero]
      exact abs_nonneg _
    · rw [min_eq_left hB.le, max_eq_right hlohi,
        abs_of_nonpos (by linarith), abs_of_nonpos (by linarith)]
      linarith

/-- C8: when no common rate is achievable within tolerance `tol ≥ 0` (the
interval gap exceeds `tol`), `fit` — a total function, so nothing is
aborted — returns a model explicitly flagged approximate (`exact = false`),
and the transformed rate of each group with unfavorable-label members is
the closest achievable rate to the target: no achievable rate `x` of that
group is closer. -/
theorem ceo_infeasible_flag (records : List PredictionRecord) (attr : String)
    (fav : Int) (tol : ℚ) (htol : 0 ≤ tol)
    (hinf : ceoMinUpper records attr fav + tol < ceoMaxLower records attr fav)
    (g : Int) (hn : (negMembers records attr fav g).length ≠ 0)
    (x : ℚ) (hx1 : ceoLower records attr fav g ≤ x)
    (hx2 : x ≤ ceoUpper records attr fav g) :
    (CalibratedEqualizedOddsPostprocessing.fit records attr fav).exact = false ∧
    |genFPR (CalibratedEqualizedOddsPostprocessing.transform
        (CalibratedEqualizedOddsPostprocessing.fit records attr fav) records)
        attr fav g
      - ceoTarget records attr fav|
      ≤ |x - ceoTarget records attr fav| := by
  have hUL : ceoMinUpper records attr fav < ceoMaxLower records attr fav := by
    linarith
  constructor
  · show decide (ceoMaxLower records attr fav ≤ ceoMinUpper records attr fav) = false
    exact decide_eq_false (not_le.mpr hUL)
  · rw [ceo_mixed_rate records attr fav g hn]
    exact clamp_closest _ _ _ x hx1 hx2

/-- Concrete records for the feasible case: the two groups' achievable
intervals `[0, 1/2]` and `[1/2, 1]` intersect at `1/2`. -/
def ceo4Recs : List PredictionRecord :=
  [mkRecord 0 0 0 0, mkRecord 0 1 1 1, mkRecord 1 0 0 1, mkRecord 1 1 1 0]

/-- Witness for C4 at a concrete input: on `ceo4Recs` the parity constraint
is feasible with tolerance `0` and the theorem applies to the two groups. -/
theorem ceo_feasible_parity_witness :
    (0 : ℚ) ≤ 0 ∧
    ceoMaxLower ceo4Recs "a" 1 ≤ ceoMinUpper ceo4Recs "a" 1 + 0 ∧
    (0 ∈ attrValsOf ceo4Recs "a") ∧ (1 ∈ attrValsOf ceo4Recs "a") ∧
    (negMembers ceo4Recs "a" 1 0).length ≠ 0 ∧
    (negMembers ceo4Recs "a" 1 1).length ≠ 0 ∧
    |genFPR (CalibratedEqualizedOddsPostprocessing.transform
        (CalibratedEqualizedOddsPostprocessing.fit ceo4Recs "a" 1) ceo4Recs) "a" 1 0
      - genFPR (CalibratedEqualizedOddsPostprocessing.transform
        (CalibratedEqualizedOddsPostprocessing.fit ceo4Recs "a" 1) ceo4Recs) "a" 1 1|
      ≤ 0 := by
  have hr0 : genFPR ceo4Recs "a" 1 0 = 0 := by
    have h : negMembers ceo4Recs "a" 1 0 = [mkRecord 0 0 0 0] := rfl
    unfold genFPR
    rw [h]
    simp [scoreMean, mkRecord]
  have hr1 : genFPR ceo4Recs "a" 1 1 = 1 := by
    have h : negMembers ceo4Recs "a" 1 1 = [mkRecord 1 0 0 1] := rfl
    unfold genFPR
    rw [h]
    simp [scoreMean, mkRecord]
  have hb0 : baseRate ceo4Recs "a" 1 0 = 1/2 := by
    have h1 : cellCount ceo4Recs "a" 0 1 = 1 := by decide
    have h2 : groupCount ceo4Recs "a" 0 = 2 := by decide
    unfold baseRate
    rw [h1, h2]
    norm_num
  have hb1 : baseRate ceo4Recs "a" 1 1 = 1/2 := by
    have h1 : cellCount ceo4Recs "a" 1 1 = 1 := by decide
    have h2 : groupCount ceo4Recs "a" 1 = 2 := by decide
    unfold baseRate
    rw [h1, h2]
    norm_num
  have hlo0 : ceoLower ceo4Recs "a" 1 0 = 0 := by
    unfold ceoLower
    rw [hr0, hb0]
    norm_num
  have hlo1 : ceoLower ceo4Recs "a" 1 1 = 1/2 := by
    unfold ceoLower
    rw [hr1, hb1]
    norm_num
  have hup0 : ceoUpper ceo4Recs "a" 1 0 = 1/2 := by
    unfold ceoUpper
    rw [hr0, hb0]
    norm_num
  have hup1 : ceoUpper ceo4Recs "a" 1 1 = 1 := by
    unfold ceoUpper
    rw [hr1, hb1]
    norm_num
  have hvals : attrValsOf ceo4Recs "a" = [0, 1] := by decide
  have hML : ceoMaxLower ceo4Recs "a" 1 = 1/2 := by
    unfold ceoMaxLower
    rw [hvals, List.map_cons, List.map_cons, List.map_nil, hlo0, hlo1]
    show foldMaxD [0, 1/2] = 1/2
    unfold foldMaxD
    simp [List.foldr]
  have hMU : ceoMinUpper ceo4Recs "a" 1 = 1/2 := by
    unfold ceoMinUpper
    rw [hvals, List.map_cons, List.map_cons, List.map_nil, hup0, hup1]
    show foldMinD [1/2, 1] = 1/2
    unfold foldMinD
    simp [List.foldr]
    norm_num
  have hfeas : ceoMaxLower ceo4Recs "a" 1 ≤ ceoMinUpper ceo4Recs "a" 1 + 0 := by
    rw [hML, hMU]
    norm_num
  exact ⟨le_refl 0, hfeas, by decide, by decide, by decide, by decide,
    ceo_feasible_parity ceo4Recs "a" 1 0 (le_refl 0) hfeas 0 1
      (by decide) (by decide) (by decide) (by decide)⟩

/-- Concrete records for the infeasible case: the two groups' achievable
intervals `[0, 1/4]` and `[3/4, 1]` are disjoint with gap `1/2`. -/
def ceo8Recs : List PredictionRecord :=
  [mkRecord 0 0 1 0, mkRecord 0 0 0 0, mkRecord 0 0 0 0, mkRecord 0 0 0 0,
   mkRecord 1 0 1 0, mkRecord 1 0 1 0, mkRecord 1 0 1 0, mkRecord 1 0 0 1]

/-- Witness for C8 at a concrete input: on `ceo8Recs` the constraint is
infeasible even with tolerance `1/4`, and the theorem applies to group `0`
and the achievable rate `x = 1/4`. -/
theorem ceo_infeasible_flag_witness :
    (0 : ℚ) ≤ 1/4 ∧
    ceoMinUpper ceo8Recs "a" 1 + 1/4 < ceoMaxLower ceo8Recs "a" 1 ∧
    (negMembers ceo8Recs "a" 1 0).length ≠ 0 ∧
    ceoLower ceo8Recs "a" 1 0 ≤ 1/4 ∧ (1/4 : ℚ) ≤ ceoUpper ceo8Recs "a" 1 0 ∧
    ((CalibratedEqualizedOddsPostprocessing.fit ceo8Recs "a" 1).exact = false ∧
    |genFPR (CalibratedEqualizedOddsPostprocessing.transform
        (CalibratedEqualizedOddsPostprocessing.fit ceo8Recs "a" 1) ceo8Recs) "a" 1 0
      - ceoTarget ceo8Recs "a" 1|
      ≤ |1/4 - ceoTarget ceo8Recs "a" 1|) := by
  have hr0 : genFPR ceo8Recs "a" 1 0 = 0 := by
    have h : negMembers ceo8Recs "a" 1 0
        = [mkRecord 0 0 0 0, mkRecord 0 0 0 0, mkRecord 0 0 0 0] := rfl
    unfold genFPR
    rw [h]
    simp [scoreMean, mkRecord]
  have hr1 : genFPR ceo8Recs "a" 1 1 = 1 := by
    have h : negMembers ceo8Recs "a" 1 1 = [mkRecord 1 0 0 1] := rfl
    unfold genFPR
    rw [h]
    simp [scoreMean, mkRecord]
  have hb0 : baseRate ceo8Recs "a" 1 0 = 1/4 := by
    have h1 : cellCount ceo8Recs "a" 0 1 = 1 := by decide
    have h2 : groupCount ceo8Recs "a" 0 = 4 := by decide
    unfold baseRate
    rw [h1, h2]
    norm_num
  have hb1 : baseRate ceo8Recs "a" 1 1 = 3/4 := by
    have h1 : cellCount ceo8Recs "a" 1 1 = 3 := by decide
    have h2 : groupCount ceo8Recs "a" 1 = 4 := by decide
    unfold baseRate
    rw [h1, h2]
    norm_num
  have hlo0 : ceoLower ceo8Recs "a" 1 0 = 0 := by
    unfold ceoLower
    rw [hr0, hb0]
    norm_num
  have hlo1 : ceoLower ceo8Recs "a" 1 1 = 3/4 := by
    unfold ceoLower
    rw [hr1, hb1]
    norm_num
  have hup0 : ceoUpper ceo8Recs "a" 1 0 = 1/4 := by
    unfold ceoUpper
    rw [hr0, hb0]
    norm_num
  have hup1 : ceoUpper ceo8Recs "a" 1 1 = 1 := by
    unfold ceoUpper
    rw [hr1, hb1]
    norm_num
  have hvals : attrValsOf ceo8Recs "a" = [0, 1] := by decide
  have hML : ceoMaxLower ceo8Recs "a" 1 = 3/4 := by
    unfold ceoMaxLower
    rw [hvals, List.map_cons, List.map_cons, List.map_nil, hlo0, hlo1]
    show foldMaxD [0, 3/4] = 3/4
    unfold foldMaxD
    simp [List.foldr]
    norm_num
  have hMU : ceoMinUpper ceo8Recs "a" 1 = 1/4 := by
    unfold ceoMinUpper
    rw [hvals, List.map_cons, List.map_cons, List.map_nil, hup0, hup1]
    show foldMinD [1/4, 1] = 1/4
    unfold foldMinD
    simp [List.foldr]
    norm_num
  have hinf : ceoMinUpper ceo8Recs "a" 1 + 1/4 < ceoMaxLower ceo8Recs "a" 1 := by
    rw [hML, hMU]
    norm_num
  have hx1 : ceoLower ceo8Recs "a" 1 0 ≤ 1/4 := by
    rw [hlo0]
    norm_num
  have hx2 : (1/4 : ℚ) ≤ ceoUpper ceo8Recs "a" 1 0 := by
    rw [hup0]
  exact ⟨by norm_num, hinf, by decide, hx1, hx2,
    ceo_infeasible_flag ceo8Recs "a" 1 (1/4) (by norm_num) hinf 0
      (by decide) (1/4) hx1 hx2⟩
